import Mathlib

/-!
Shallow embedding of `verify_packages_updated.py`: a utility that reads a
Pipfile.lock (JSON) or a requirements.txt (flat lines) into a list of
canonical package-specification strings (`get_requirements`) and compares
two such lists as sets (`compare`), exiting with status 1 on mismatch.

File I/O and the stdlib JSON parser are external to the script; the lock
path therefore takes the outcome of `json.loads` as an `Except` input and
the flat path takes the list of lines produced by `str.splitlines`
(which are newline-free).  Everything downstream of those stdlib calls is
translated statement by statement from the source.
-/

namespace VerifyPackagesUpdated

/-- A Python error that can escape `get_requirements`:
`json.JSONDecodeError` from `json.loads`, or `KeyError` for a missing
dictionary key (the carried string is the missing key). -/
inductive PyErr where
  | decodeError : PyErr
  | keyError : String → PyErr
deriving DecidableEq, Repr

/-- The fields of the info dict of one `default` entry that the script reads:
`info["version"]`, `info.get("extras")`, `info.get("markers")`,
`info["git"]`, `info["ref"]`.  A `none` field is an absent key. -/
structure PackageInfo where
  version : Option String := none
  extras : Option (List String) := none
  markers : Option String := none
  git : Option String := none
  ref : Option String := none
deriving DecidableEq, Repr

/-- The parsed top-level JSON object of a Pipfile.lock.  The script only
reads its `default` member, a mapping from package name to info dict
(`none` models a document with no `default` key); other members are
never consulted. -/
structure LockDoc where
  defaultMap : Option (List (String × PackageInfo)) := none

/-- Python truthiness of `info.get("extras")`: an absent key gives
`None` (falsy) and an empty list is falsy. -/
def listTruthy : Option (List String) → Bool
  | some (_ :: _) => true
  | _ => false

/-- Python truthiness of `info.get("markers")`: an absent key gives
`None` (falsy) and the empty string is falsy. -/
def strTruthy : Option String → Bool
  | some s => s ≠ ""
  | none => false

/-- The body of the per-entry `try`/`except KeyError` block.  In the
`try` branch the only statement that can raise `KeyError` is
`info["version"]`; when it does, control moves to the handler, where a
`KeyError` from `info["git"]` or `info["ref"]` is NOT caught (a handler
does not catch exceptions raised inside itself) and so propagates. -/
def entryToSpec (name : String) (info : PackageInfo) : Except PyErr String :=
  match info.version with
  | some v =>
      -- Standard package[extras]==version ; markers
      let package := name
      let package :=
        if listTruthy info.extras then
          package ++ "[" ++ String.intercalate "," (info.extras.getD []) ++ "]"
        else package
      let package := package ++ v
      let package :=
        if strTruthy info.markers then
          package ++ " ; " ++ info.markers.getD ""
        else package
      .ok package
  | none =>
      -- Package installed from git
      match info.git with
      | none => .error (.keyError "git")
      | some url =>
          match info.ref with
          | none => .error (.keyError "ref")
          | some branch => .ok ("git+" ++ url ++ "@" ++ branch ++ "#egg=" ++ name)

/-- The `for name, info in package_info.items()` loop: entries are
processed in order, appending each spec; the first uncaught error
aborts the whole call. -/
def processEntries : List (String × PackageInfo) → Except PyErr (List String)
  | [] => .ok []
  | (name, info) :: rest =>
      match entryToSpec name info with
      | .error e => .error e
      | .ok p =>
          match processEntries rest with
          | .error e => .error e
          | .ok ps => .ok (p :: ps)

/-- Lock-file mode of `get_requirements` (`is_piplock=True`), starting
from the outcome of `json.loads`: a parse failure propagates (the call
is not inside any `try`), `["default"]` raises `KeyError` when the key
is absent (this subscript is outside the per-entry `try`), and then the
entries are folded by `processEntries`. -/
def getRequirementsPiplock (loaded : Except PyErr LockDoc) : Except PyErr (List String) :=
  match loaded with
  | .error e => .error e
  | .ok doc =>
      match doc.defaultMap with
      | none => .error (.keyError "default")
      | some packageInfo => processEntries packageInfo

/-- Membership in the regex character class `[A-Za-z0-9-\[\]]`. -/
def inClass (c : Char) : Bool :=
  c.isAlpha || c.isDigit || c = '-' || c = '[' || c = ']'

/-- After the class run, the pattern demands `==` followed by at least
one digit (`==\d+`); the pattern is unanchored at the end, so anything
may follow the first digit. -/
def pinnedSuffix : List Char → Bool
  | c1 :: c2 :: d :: _ => c1 = '=' && c2 = '=' && d.isDigit
  | _ => false

/-- `re.match` of the alternative `[A-Za-z0-9-\[\]]+==\d+` at the start
of the line: some nonempty prefix of class characters is followed by
`==` and a digit. -/
def matchPinned : List Char → Bool
  | [] => false
  | c :: cs => inClass c && (pinnedSuffix cs || matchPinned cs)

/-- Membership in the regex character class `[htps]`. -/
def isHtps (c : Char) : Bool :=
  c = 'h' || c = 't' || c = 'p' || c = 's'

/-- One further character matched by `.` (anything but a newline). -/
def dotChar : List Char → Bool
  | c :: _ => c ≠ '\n'
  | [] => false

/-- The part of the git alternative after the literal `git+`:
`[htps]+` then `.+` (at least one more non-newline character). -/
def matchGitTail : List Char → Bool
  | [] => false
  | c :: cs => isHtps c && (dotChar cs || matchGitTail cs)

/-- `re.match` of the alternative `git\+[htps]+.+` at the start of the
line. -/
def matchGit : List Char → Bool
  | c1 :: c2 :: c3 :: c4 :: rest =>
      c1 = 'g' && c2 = 'i' && c3 = 't' && c4 = '+' && matchGitTail rest
  | _ => false

/-- `is_package.match(line)` is truthy: the compiled pattern
`[A-Za-z0-9-\[\]]+==\d+|git\+[htps]+.+` matches at the start of the
line. -/
def isPackage (line : String) : Bool :=
  matchPinned line.data || matchGit line.data

/-- Flat-file mode of `get_requirements` (`is_piplock=False`), starting
from `req_file.read().splitlines()`: the list comprehension keeps the
lines on which `is_package.match` succeeds. -/
def getRequirementsFlat (allLines : List String) : List String :=
  allLines.filter isPackage

/-- Python `"\n".join`. -/
def joinNL : List String → String
  | [] => ""
  | [x] => x
  | x :: xs => x ++ "\n" ++ joinNL xs

/-- `list(set(reqs_1) - set(reqs_2))`: the elements of `reqs_1` that are
not in `reqs_2`, each once.  The set iteration order in Python is
unspecified; this model fixes first-occurrence order, and every theorem
about the diff is stated at the level of its set of elements. -/
def setDiff (reqs_1 reqs_2 : List String) : List String :=
  reqs_1.dedup.filter (fun x => decide (x ∉ reqs_2))

/-- The error message assembled when the diff strings are not both
empty, exactly as the source concatenates it. -/
def mkErrMsg (diff_lock diff_pip : String) : String :=
  "Requirements files do not match.\n\n"
    ++ (if diff_lock ≠ "" then "Found in Pipfile.lock:\n" ++ diff_lock ++ "\n\n" else "")
    ++ (if diff_pip ≠ "" then "Found in requirements.txt:\n" ++ diff_pip else "")

/-- Observable outcome of `compare`: either it returns normally (silent,
process exit status 0) or it writes the message to stderr and calls
`sys.exit(1)`. -/
inductive CompareOutcome where
  | ok : CompareOutcome
  | fail : String → CompareOutcome
deriving DecidableEq, Repr

/-- The `compare` function.  Note `if diff_lock or diff_pip:` tests
Python string truthiness of the two joined diff strings, not emptiness
of the underlying sets. -/
def compareReqs (reqs_1 reqs_2 : List String) : CompareOutcome :=
  let diff_lock := joinNL (setDiff reqs_1 reqs_2)
  let diff_pip := joinNL (setDiff reqs_2 reqs_1)
  if diff_lock ≠ "" ∨ diff_pip ≠ "" then
    .fail (mkErrMsg diff_lock diff_pip)
  else .ok

/-- Spec-side definition, following the wording of the specification
rather than the source: the canonical form for a lock entry
with a version is `name` + optional `[extras]` (extras joined with
commas) + `version` + optional ` ; markers`, the extras part omitted
when there are no (non-empty) extras and the markers part omitted when
there are no (non-empty) markers. -/
def specCanonicalVersion (name : String) (extras : Option (List String))
    (v : String) (markers : Option String) : String :=
  let extrasPart :=
    match extras with
    | some es => if es = [] then "" else "[" ++ String.intercalate "," es ++ "]"
    | none => ""
  let markersPart :=
    match markers with
    | some m => if m = "" then "" else " ; " ++ m
    | none => ""
  name ++ extrasPart ++ v ++ markersPart

/-! Helper lemmas shared by the claim theorems. -/

theorem mem_setDiff {x : String} {r1 r2 : List String} :
    x ∈ setDiff r1 r2 ↔ x ∈ r1 ∧ x ∉ r2 := by
  simp [setDiff, List.mem_filter, List.mem_dedup]

theorem setDiff_nodup (r1 r2 : List String) : (setDiff r1 r2).Nodup :=
  List.Nodup.filter _ (List.nodup_dedup r1)

theorem joinNL_cons_cons (x y : String) (t : List String) :
    joinNL (x :: y :: t) = x ++ "\n" ++ joinNL (y :: t) := rfl

theorem joinNL_eq_empty_iff {l : List String} (h : l.Nodup) :
    joinNL l = "" ↔ ∀ x ∈ l, x = "" := by
  match l with
  | [] => simp [joinNL]
  | [x] => simp [joinNL]
  | x :: y :: t =>
    constructor
    · intro hj
      exfalso
      have hlen := congrArg String.length hj
      rw [joinNL_cons_cons, String.length_append, String.length_append] at hlen
      have hnl : ("\n" : String).length = 1 := rfl
      have hz : ("" : String).length = 0 := rfl
      rw [hnl, hz] at hlen
      omega
    · intro hall
      exfalso
      have hx := hall x (by simp)
      have hy := hall y (by simp)
      have hne : x ∉ y :: t := (List.nodup_cons.mp h).1
      exact hne (by simp [hx, hy])

theorem compareReqs_eq_ok_iff (r1 r2 : List String) :
    compareReqs r1 r2 = .ok ↔ ∀ x, x ≠ "" → (x ∈ r1 ↔ x ∈ r2) := by
  have hdiff : ∀ a b : List String,
      joinNL (setDiff a b) = "" ↔ ∀ x, x ≠ "" → x ∈ a → x ∈ b := by
    intro a b
    rw [joinNL_eq_empty_iff (setDiff_nodup a b)]
    constructor
    · intro h x hne hxa
      by_contra hxb
      exact hne (h x (mem_setDiff.mpr ⟨hxa, hxb⟩))
    · intro h x hx
      obtain ⟨hxa, hxb⟩ := mem_setDiff.mp hx
      by_contra hne
      exact hxb (h x hne hxa)
  have hsplit : compareReqs r1 r2 = .ok ↔
      (joinNL (setDiff r1 r2) = "" ∧ joinNL (setDiff r2 r1) = "") := by
    simp only [compareReqs]
    split
    next hc =>
      constructor
      · intro h; cases h
      · intro h; exact absurd h (by tauto)
    next hc =>
      push_neg at hc
      simp [hc]
  rw [hsplit, hdiff, hdiff]
  constructor
  · rintro ⟨hA, hB⟩ x hx
    exact ⟨hA x hx, hB x hx⟩
  · intro h
    exact ⟨fun x hx m => (h x hx).mp m, fun x hx m => (h x hx).mpr m⟩

theorem compareReqs_fail_of_ne_ok {r1 r2 : List String}
    (h : compareReqs r1 r2 ≠ .ok) :
    compareReqs r1 r2 =
      .fail (mkErrMsg (joinNL (setDiff r1 r2)) (joinNL (setDiff r2 r1))) := by
  by_cases hc : joinNL (setDiff r1 r2) ≠ "" ∨ joinNL (setDiff r2 r1) ≠ ""
  · simp [compareReqs, hc]
  · exact absurd (by simp [compareReqs, hc]) h

theorem entryToSpec_version {name : String} {info : PackageInfo} {v : String}
    (hv : info.version = some v) :
    entryToSpec name info = .ok (specCanonicalVersion name info.extras v info.markers) := by
  obtain ⟨version, extras, markers, git, ref⟩ := info
  simp only at hv
  subst hv
  rcases extras with _ | ⟨_ | ⟨e, es⟩⟩ <;> rcases markers with _ | m
  all_goals
    simp [entryToSpec, specCanonicalVersion, listTruthy, strTruthy,
      String.ext_iff, String.data_append, List.append_assoc]
  all_goals
    by_cases hm : m.data = [] <;>
      simp [hm, String.data_append, List.append_assoc]

theorem mem_processEntries_ok {entries : List (String × PackageInfo)}
    {ps : List String} {name : String} {info : PackageInfo} {p : String}
    (hmem : (name, info) ∈ entries) (hok : processEntries entries = .ok ps)
    (hp : entryToSpec name info = .ok p) : p ∈ ps := by
  induction entries generalizing ps with
  | nil => cases hmem
  | cons hd tl ih =>
    obtain ⟨hdname, hdinfo⟩ := hd
    cases hspec : entryToSpec hdname hdinfo with
    | error e =>
      rw [processEntries, hspec] at hok
      cases hok
    | ok q =>
      rw [processEntries, hspec] at hok
      cases hrest : processEntries tl with
      | error e => rw [hrest] at hok; cases hok
      | ok qs =>
        rw [hrest] at hok
        have hps : ps = q :: qs := by cases hok; rfl
        subst hps
        rcases List.mem_cons.mp hmem with heq | htl
        · have h1 : name = hdname := congrArg Prod.fst heq
          have h2 : info = hdinfo := congrArg Prod.snd heq
          subst h1; subst h2
          rw [hp] at hspec
          cases hspec
          exact List.mem_cons_self _ _
        · exact List.mem_cons_of_mem _ (ih htl hrest)

theorem processEntries_error_of_mem {entries : List (String × PackageInfo)}
    {name : String} {info : PackageInfo} {e : PyErr}
    (hmem : (name, info) ∈ entries) (he : entryToSpec name info = .error e) :
    ∃ e2, processEntries entries = .error e2 := by
  induction entries with
  | nil => cases hmem
  | cons hd tl ih =>
    obtain ⟨hdname, hdinfo⟩ := hd
    cases hspec : entryToSpec hdname hdinfo with
    | error e3 => exact ⟨e3, by rw [processEntries, hspec]⟩
    | ok q =>
      rcases List.mem_cons.mp hmem with heq | htl
      · have h1 : name = hdname := congrArg Prod.fst heq
        have h2 : info = hdinfo := congrArg Prod.snd heq
        subst h1; subst h2
        rw [he] at hspec
        cases hspec
      · obtain ⟨e2, h2⟩ := ih htl
        exact ⟨e2, by rw [processEntries, hspec, h2]⟩

theorem pinnedSuffix_append {cs : List Char} (ds : List Char)
    (h : pinnedSuffix cs = true) : pinnedSuffix (cs ++ ds) = true := by
  rcases cs with _ | ⟨c1, _ | ⟨c2, _ | ⟨c3, t⟩⟩⟩
  · simp [pinnedSuffix] at h
  · simp [pinnedSuffix] at h
  · simp [pinnedSuffix] at h
  · simpa [pinnedSuffix] using h

theorem matchPinned_append {cs : List Char} (ds : List Char)
    (h : matchPinned cs = true) : matchPinned (cs ++ ds) = true := by
  induction cs with
  | nil => simp [matchPinned] at h
  | cons c cs ih =>
    simp only [List.cons_append, matchPinned, Bool.and_eq_true, Bool.or_eq_true] at h ⊢
    refine ⟨h.1, ?_⟩
    rcases h.2 with hp | hm
    · exact Or.inl (pinnedSuffix_append ds hp)
    · exact Or.inr (ih hm)

theorem dotChar_append {cs : List Char} (ds : List Char)
    (h : dotChar cs = true) : dotChar (cs ++ ds) = true := by
  rcases cs with _ | ⟨c, t⟩
  · simp [dotChar] at h
  · simpa [dotChar] using h

theorem matchGitTail_append {cs : List Char} (ds : List Char)
    (h : matchGitTail cs = true) : matchGitTail (cs ++ ds) = true := by
  induction cs with
  | nil => simp [matchGitTail] at h
  | cons c cs ih =>
    simp only [List.cons_append, matchGitTail, Bool.and_eq_true, Bool.or_eq_true] at h ⊢
    refine ⟨h.1, ?_⟩
    rcases h.2 with hd | hm
    · exact Or.inl (dotChar_append ds hd)
    · exact Or.inr (ih hm)

theorem matchGit_append {cs : List Char} (ds : List Char)
    (h : matchGit cs = true) : matchGit (cs ++ ds) = true := by
  rcases cs with _ | ⟨c1, _ | ⟨c2, _ | ⟨c3, _ | ⟨c4, t⟩⟩⟩⟩
  · simp [matchGit] at h
  · simp [matchGit] at h
  · simp [matchGit] at h
  · simp [matchGit] at h
  · simp only [List.cons_append, matchGit, Bool.and_eq_true] at h ⊢
    exact ⟨h.1, matchGitTail_append ds h.2⟩

/-! The claim theorems. -/

/-- C1: in lock-file mode, every `default` entry with a `version` key is
rendered as the canonical string `name` + optional `[extras]` (joined
with commas) + `version` + optional ` ; markers`, the extras part
omitted when there are no non-empty extras and the markers part omitted
when there are no non-empty markers, and that string appears in the
output list; in particular the entry `requests ↦ {version : ==2.25.1}`
yields exactly `requests==2.25.1`. -/
theorem lock_version_entry_canonical :
    (∀ (name : String) (info : PackageInfo) (v : String), info.version = some v →
      entryToSpec name info = .ok (specCanonicalVersion name info.extras v info.markers) ∧
      ∀ (entries : List (String × PackageInfo)) (ps : List String),
        (name, info) ∈ entries → processEntries entries = .ok ps →
        specCanonicalVersion name info.extras v info.markers ∈ ps) ∧
    getRequirementsPiplock
        (.ok ⟨some [("requests", { version := some "==2.25.1" })]⟩) =
      .ok ["requests==2.25.1"] := by
  refine ⟨fun name info v hv => ⟨entryToSpec_version hv, ?_⟩, rfl⟩
  intro entries ps hmem hok
  exact mem_processEntries_ok hmem hok (entryToSpec_version hv)

/-- Witness for C1, at the entry `requests ↦ {version : ==2.25.1}`. -/
theorem lock_version_entry_canonical_witness :
    entryToSpec "requests" { version := some "==2.25.1" } =
      .ok (specCanonicalVersion "requests" none "==2.25.1" none) ∧
    specCanonicalVersion "requests" none "==2.25.1" none ∈ ["requests==2.25.1"] := by
  have h := lock_version_entry_canonical.1 "requests"
    { version := some "==2.25.1" } "==2.25.1" rfl
  exact ⟨h.1, h.2 [("requests", { version := some "==2.25.1" })]
    ["requests==2.25.1"] (by simp) rfl⟩

/-- C2: in lock-file mode, every `default` entry without a `version` key
but with both a `git` URL and a `ref` is rendered as exactly
`git+<url>@<ref>#egg=<name>`, and that string appears in the output
list. -/
theorem lock_git_entry_canonical :
    ∀ (name : String) (info : PackageInfo) (url r : String),
      info.version = none → info.git = some url → info.ref = some r →
      entryToSpec name info = .ok ("git+" ++ url ++ "@" ++ r ++ "#egg=" ++ name) ∧
      ∀ (entries : List (String × PackageInfo)) (ps : List String),
        (name, info) ∈ entries → processEntries entries = .ok ps →
        ("git+" ++ url ++ "@" ++ r ++ "#egg=" ++ name) ∈ ps := by
  intro name info url r hv hg hr
  have hspec : entryToSpec name info =
      .ok ("git+" ++ url ++ "@" ++ r ++ "#egg=" ++ name) := by
    simp [entryToSpec, hv, hg, hr]
  exact ⟨hspec, fun entries ps hmem hok => mem_processEntries_ok hmem hok hspec⟩

/-- Witness for C2, at a package installed from git. -/
theorem lock_git_entry_canonical_witness :
    entryToSpec "pkg" { git := some "https://example.com/repo.git", ref := some "abc123" } =
      .ok ("git+" ++ "https://example.com/repo.git" ++ "@" ++ "abc123" ++ "#egg=" ++ "pkg") ∧
    ("git+" ++ "https://example.com/repo.git" ++ "@" ++ "abc123" ++ "#egg=" ++ "pkg") ∈
      (["git+https://example.com/repo.git@abc123#egg=pkg"] : List String) := by
  have h := lock_git_entry_canonical "pkg"
    { git := some "https://example.com/repo.git", ref := some "abc123" }
    "https://example.com/repo.git" "abc123" rfl rfl rfl
  exact ⟨h.1, h.2
    [("pkg", { git := some "https://example.com/repo.git", ref := some "abc123" })]
    ["git+https://example.com/repo.git@abc123#egg=pkg"] (by simp) rfl⟩

/-- C3: in flat-file mode the result holds exactly the input lines on
which the compiled pattern matches (pinned-version alternative or git
alternative); every other line is dropped, among them the line
`-i https://pypi.org/simple`, every line starting with `#`, and the
empty line. -/
theorem flat_keeps_exactly_matching_lines :
    (∀ (allLines : List String) (l : String),
      l ∈ getRequirementsFlat allLines ↔
        l ∈ allLines ∧ (matchPinned l.data = true ∨ matchGit l.data = true)) ∧
    isPackage "-i https://pypi.org/simple" = false ∧
    (∀ cs : List Char, matchPinned ('#' :: cs) = false ∧ matchGit ('#' :: cs) = false) ∧
    isPackage "" = false := by
  refine ⟨?_, by decide, ?_, by decide⟩
  · intro allLines l
    simp [getRequirementsFlat, List.mem_filter, isPackage]
  · intro cs
    refine ⟨rfl, ?_⟩
    rcases cs with _ | ⟨a, _ | ⟨b, _ | ⟨c, t⟩⟩⟩ <;> rfl

/-- C4 counterexample: the claim that `compare` succeeds silently if and
only if the two lists hold the same set of strings is refuted by the
pair `[""]`, `[]`: the sets differ, yet the joined diff string of the
set holding only the empty string is itself empty, hence falsy, and
`compare` returns normally with no output. -/
theorem compare_set_equality_counterexample :
    compareReqs [""] [] = .ok ∧
    ¬(∀ x : String, x ∈ ([""] : List String) ↔ x ∈ ([] : List String)) := by
  refine ⟨by decide, fun h => ?_⟩
  have hmem := (h "").mp (by simp)
  simp at hmem

/-- C4 amended: `compare` succeeds silently (returns normally, nothing
written) if and only if the two lists agree on membership of every
NON-EMPTY string; otherwise it writes the diagnostic message assembled
from the two joined set differences and exits with failure status. -/
theorem compare_ok_iff_nonempty_agreement (r1 r2 : List String) :
    (compareReqs r1 r2 = .ok ↔ ∀ x, x ≠ "" → (x ∈ r1 ↔ x ∈ r2)) ∧
    (compareReqs r1 r2 ≠ .ok →
      compareReqs r1 r2 =
        .fail (mkErrMsg (joinNL (setDiff r1 r2)) (joinNL (setDiff r2 r1)))) :=
  ⟨compareReqs_eq_ok_iff r1 r2, compareReqs_fail_of_ne_ok⟩

/-- Witness for the amended C4: equal singleton manifests match
silently, and differing versions produce the diagnostic failure. -/
theorem compare_ok_iff_nonempty_agreement_witness :
    compareReqs ["requests==2.25.1"] ["requests==2.25.1"] = .ok ∧
    compareReqs ["requests==2.25.1"] ["requests==2.25.0"] =
      .fail (mkErrMsg (joinNL (setDiff ["requests==2.25.1"] ["requests==2.25.0"]))
        (joinNL (setDiff ["requests==2.25.0"] ["requests==2.25.1"]))) := by
  constructor
  · exact (compare_ok_iff_nonempty_agreement ["requests==2.25.1"]
      ["requests==2.25.1"]).1.mpr (fun x hx => Iff.rfl)
  · exact (compare_ok_iff_nonempty_agreement ["requests==2.25.1"]
      ["requests==2.25.0"]).2 (by decide)

/-- C5: in lock-file mode the whole call fails, with no partial result,
when the content is not valid JSON (the decode error propagates), when
the parsed object has no `default` key (`KeyError`), or when a
`default` entry has neither a `version` key nor a `git` reference (the
`KeyError` raised inside the handler propagates). -/
theorem lock_error_propagation :
    (∀ e : PyErr, getRequirementsPiplock (.error e) = .error e) ∧
    (∀ doc : LockDoc, doc.defaultMap = none →
      getRequirementsPiplock (.ok doc) = .error (.keyError "default")) ∧
    (∀ (doc : LockDoc) (entries : List (String × PackageInfo))
        (name : String) (info : PackageInfo),
      doc.defaultMap = some entries → (name, info) ∈ entries →
      info.version = none → info.git = none →
      ∃ e, getRequirementsPiplock (.ok doc) = .error e) := by
  refine ⟨fun e => rfl, fun doc h => by simp [getRequirementsPiplock, h], ?_⟩
  intro doc entries name info hdoc hmem hv hg
  have he : entryToSpec name info = .error (.keyError "git") := by
    simp [entryToSpec, hv, hg]
  obtain ⟨e2, h2⟩ := processEntries_error_of_mem hmem he
  exact ⟨e2, by simp [getRequirementsPiplock, hdoc, h2]⟩

/-- Witness for C5, at a decode failure, a lock document with no
`default` key, and an entry with neither `version` nor `git`. -/
theorem lock_error_propagation_witness :
    getRequirementsPiplock (.error .decodeError) = .error .decodeError ∧
    getRequirementsPiplock (.ok ⟨none⟩) = .error (.keyError "default") ∧
    ∃ e, getRequirementsPiplock (.ok ⟨some [("pkg", {})]⟩) = .error e :=
  ⟨lock_error_propagation.1 .decodeError,
   lock_error_propagation.2.1 ⟨none⟩ rfl,
   lock_error_propagation.2.2 ⟨some [("pkg", {})]⟩ [("pkg", {})] "pkg" {}
     rfl (by simp) rfl rfl⟩

/-- C6: the verdict of `compare` and the entries it would report depend
only on the underlying sets of the two lists: reordering, duplicating
or deduplicating elements changes neither the silent-success verdict
nor the set of entries unique to each side. -/
theorem compare_depends_only_on_sets :
    ∀ r1 r1a r2 r2a : List String,
      (∀ x, x ∈ r1 ↔ x ∈ r1a) → (∀ x, x ∈ r2 ↔ x ∈ r2a) →
      ((compareReqs r1 r2 = .ok ↔ compareReqs r1a r2a = .ok) ∧
       (∀ x, x ∈ setDiff r1 r2 ↔ x ∈ setDiff r1a r2a) ∧
       (∀ x, x ∈ setDiff r2 r1 ↔ x ∈ setDiff r2a r1a)) := by
  intro r1 r1a r2 r2a h1 h2
  refine ⟨?_, ?_, ?_⟩
  · rw [compareReqs_eq_ok_iff, compareReqs_eq_ok_iff]
    constructor
    · intro h x hx
      rw [← h1 x, ← h2 x]
      exact h x hx
    · intro h x hx
      rw [h1 x, h2 x]
      exact h x hx
  · intro x
    simp only [mem_setDiff]
    rw [h1 x, h2 x]
  · intro x
    simp only [mem_setDiff]
    rw [h1 x, h2 x]

/-- Witness for C6: duplicating the single element of one list changes
nothing observable. -/
theorem compare_depends_only_on_sets_witness :
    (compareReqs ["a", "a"] [] = .ok ↔ compareReqs ["a"] [] = .ok) ∧
    (∀ x, x ∈ setDiff ["a", "a"] [] ↔ x ∈ setDiff ["a"] []) ∧
    (∀ x, x ∈ setDiff [] ["a", "a"] ↔ x ∈ setDiff [] ["a"]) :=
  compare_depends_only_on_sets ["a", "a"] ["a"] [] []
    (fun x => by simp) (fun x => Iff.rfl)

/-- C7: `compare` is symmetric: swapping the two lists preserves the
mismatch verdict, and in the failure outputs the two joined diff
strings trade places inside the message. -/
theorem compare_symmetric :
    ∀ r1 r2 : List String,
      (compareReqs r1 r2 = .ok ↔ compareReqs r2 r1 = .ok) ∧
      (compareReqs r1 r2 ≠ .ok →
        compareReqs r1 r2 =
          .fail (mkErrMsg (joinNL (setDiff r1 r2)) (joinNL (setDiff r2 r1))) ∧
        compareReqs r2 r1 =
          .fail (mkErrMsg (joinNL (setDiff r2 r1)) (joinNL (setDiff r1 r2)))) := by
  intro r1 r2
  have hsym : compareReqs r1 r2 = .ok ↔ compareReqs r2 r1 = .ok := by
    rw [compareReqs_eq_ok_iff, compareReqs_eq_ok_iff]
    constructor
    · intro h x hx
      exact (h x hx).symm
    · intro h x hx
      exact (h x hx).symm
  refine ⟨hsym, fun h => ⟨compareReqs_fail_of_ne_ok h, ?_⟩⟩
  exact compareReqs_fail_of_ne_ok (fun h2 => h (hsym.mpr h2))

/-- Witness for C7, at the mismatching pair `["a"]`, `[]`. -/
theorem compare_symmetric_witness :
    (compareReqs ["a"] [] = .ok ↔ compareReqs [] ["a"] = .ok) ∧
    (compareReqs ["a"] [] =
      .fail (mkErrMsg (joinNL (setDiff ["a"] [])) (joinNL (setDiff [] ["a"]))) ∧
     compareReqs [] ["a"] =
      .fail (mkErrMsg (joinNL (setDiff [] ["a"])) (joinNL (setDiff ["a"] [])))) :=
  ⟨(compare_symmetric ["a"] []).1, (compare_symmetric ["a"] []).2 (by decide)⟩

/-- C8: in flat-file mode every kept line is an input line kept
verbatim, and the kept lines keep the relative order of the input: the
result is a sublist of the input, namely its filter under the match
test. -/
theorem flat_kept_lines_verbatim_in_order :
    ∀ allLines : List String,
      (getRequirementsFlat allLines).Sublist allLines ∧
      getRequirementsFlat allLines = allLines.filter isPackage :=
  fun allLines => ⟨List.filter_sublist allLines, rfl⟩

/-- C9: the flat-file match test only constrains a prefix of the line
(a matching line stays matching under any extension) and demands the
pinned version start with a digit: `package==1 anything else` is kept,
while `package==beta` and `package>=1.0` are excluded. -/
theorem flat_prefix_match_digit_required :
    (∀ cs ds : List Char, matchPinned cs = true → matchPinned (cs ++ ds) = true) ∧
    (∀ cs ds : List Char, matchGit cs = true → matchGit (cs ++ ds) = true) ∧
    isPackage "package==1 anything else" = true ∧
    isPackage "package==beta" = false ∧
    isPackage "package>=1.0" = false :=
  ⟨fun _ ds h => matchPinned_append ds h,
   fun _ ds h => matchGit_append ds h,
   by decide, by decide, by decide⟩

/-- Witness for C9: the matching prefix `package==1` stays matching
after appending ` anything else`. -/
theorem flat_prefix_match_digit_required_witness :
    matchPinned ("package==1".data ++ " anything else".data) = true :=
  flat_prefix_match_digit_required.1 "package==1".data " anything else".data (by decide)

/-- C10: in lock-file mode an entry without `version`, with a `git` URL
but without `ref`, raises `KeyError` on the `ref` lookup inside the
handler, which propagates: the entry yields no canonical string and the
whole call fails. -/
theorem lock_git_without_ref_fails :
    ∀ (name : String) (info : PackageInfo) (url : String),
      info.version = none → info.git = some url → info.ref = none →
      entryToSpec name info = .error (.keyError "ref") ∧
      ∀ entries : List (String × PackageInfo), (name, info) ∈ entries →
        ∃ e, processEntries entries = .error e := by
  intro name info url hv hg hr
  have he : entryToSpec name info = .error (.keyError "ref") := by
    simp [entryToSpec, hv, hg, hr]
  exact ⟨he, fun entries hmem => processEntries_error_of_mem hmem he⟩

/-- Witness for C10, at an entry with a `git` URL and no `ref`. -/
theorem lock_git_without_ref_fails_witness :
    entryToSpec "pkg" { git := some "https://example.com/repo.git" } =
      .error (.keyError "ref") ∧
    ∃ e, processEntries [("pkg", { git := some "https://example.com/repo.git" })] =
      .error e := by
  have h := lock_git_without_ref_fails "pkg"
    { git := some "https://example.com/repo.git" } "https://example.com/repo.git"
    rfl rfl rfl
  exact ⟨h.1, h.2 [("pkg", { git := some "https://example.com/repo.git" })] (by simp)⟩

end VerifyPackagesUpdated
